import Mathlib

/-!
Verification development for the markdown table-of-contents / document-symbol
provider and the user-data-profile main service of this repository.

The markdown side shallow-embeds `TableOfContents.buildToc` and
`MdDocumentSymbolProvider.buildTree` / `provideDocumentSymbols`; the profile
side shallow-embeds `UserDataProfilesMainService` with its two persisted
slots and an explicit trace of external effects (state-store writes, file
deletions, fired events).
-/

namespace Vscode

/-! ## Markdown document model -/

/-- A text document as the provider sees it (`SkinnyTextDocument`): a uri and
its lines.  `lineCount` is the number of lines. -/
structure Document where
  uri : String
  lines : List String
  deriving DecidableEq, Repr

/-- `document.lineAt(n).text`. -/
def lineAt (doc : Document) (n : Nat) : String :=
  doc.lines.getD n ""

/-- The fields of a markdown-it token that `buildToc` consumes: its `type`
(only `'heading_open'` tokens are kept), its source `map` (start and end
line; headings without a map are skipped) and its `markup`
(`'#'…`, `'='` or `'-'`). -/
structure Token where
  type : String
  map : Option (Nat × Nat)
  markup : String
  deriving DecidableEq, Repr

/-- `vscode.Position`: zero-based line and character. -/
structure Pos where
  line : Nat
  character : Nat
  deriving DecidableEq, Repr

/-- `vscode.Range`; the source's `range.end` is `endPos` here. -/
structure Rng where
  start : Pos
  endPos : Pos
  deriving DecidableEq, Repr

/-- `vscode.Location`: a uri plus a range. -/
structure Location where
  uri : String
  range : Rng
  deriving DecidableEq, Repr

/-- `TocEntry` from `tableOfContents.ts`.  The `Slug` object is represented by
its `value` string. -/
structure TocEntry where
  slug : String
  text : String
  level : Nat
  line : Nat
  sectionLocation : Location
  headerLocation : Location
  headerTextLocation : Location
  deriving DecidableEq, Repr

/-- `TableOfContents.getHeaderLevel`. -/
def getHeaderLevel (markup : String) : Nat :=
  if markup = "=" then 1
  else if markup = "-" then 2
  else markup.length

/-- `TableOfContents.getHeaderText`: the replace of
`^\s*#+\s*(.*?)(\s+#+)?$` by the trimmed captured word.  When the line has no
leading `#` run (after optional whitespace) the regex does not match and the
line is returned unchanged; otherwise the leading whitespace-hash-whitespace
prefix and an optional trailing whitespace-plus-hash run are stripped and the
remaining word trimmed. -/
def getHeaderText (header : String) : String :=
  let cs := header.data
  let ws := cs.takeWhile (fun c => c.isWhitespace)
  let afterWs := cs.drop ws.length
  let hashes := afterWs.takeWhile (fun c => c = '#')
  if hashes.isEmpty then header
  else
    let afterHashes := afterWs.drop hashes.length
    let ws2 := afterHashes.takeWhile (fun c => c.isWhitespace)
    let body := afterHashes.drop ws2.length
    let rbody := body.reverse
    let rhashes := rbody.takeWhile (fun c => c = '#')
    let rws := (rbody.drop rhashes.length).takeWhile (fun c => c.isWhitespace)
    let body2 :=
      if rhashes.isEmpty ∨ rws.isEmpty then body
      else (rbody.drop (rhashes.length + rws.length)).reverse
    (String.mk body2).trim

/-- Length of the match of `^#+\s*` against the line (`0` when the line does
not start with `#`); the start column of `headerTextLocation`. -/
def leadingHashWsLen (s : String) : Nat :=
  let cs := s.data
  let hashes := cs.takeWhile (fun c => c = '#')
  if hashes.isEmpty then 0
  else hashes.length + ((cs.drop hashes.length).takeWhile (fun c => c.isWhitespace)).length

/-- Length of the (leftmost, hence maximal-suffix) match of `\s*#*$`: a
trailing `#` run together with the whitespace run right before it. -/
def trailingWsHashLen (s : String) : Nat :=
  let rcs := s.data.reverse
  let hashes := rcs.takeWhile (fun c => c = '#')
  hashes.length + ((rcs.drop hashes.length).takeWhile (fun c => c.isWhitespace)).length

/-- The `headerLocation` built for the heading at `lineNumber`. -/
def headerLocationOf (doc : Document) (lineNumber : Nat) : Location :=
  ⟨doc.uri, ⟨⟨lineNumber, 0⟩, ⟨lineNumber, (lineAt doc lineNumber).length⟩⟩⟩

/-- The `headerTextLocation` built for the heading at `lineNumber`. -/
def headerTextLocationOf (doc : Document) (lineNumber : Nat) : Location :=
  ⟨doc.uri,
    ⟨⟨lineNumber, leadingHashWsLen (lineAt doc lineNumber)⟩,
      ⟨lineNumber, (lineAt doc lineNumber).length - trailingWsHashLen (lineAt doc lineNumber)⟩⟩⟩

/-! ### Slug disambiguation (`existingSlugEntries` map)

The JS `Map<string, { count: number }>` keyed by slug value is an association
list; `++existingSlugEntry.count` mutates the entry in place. -/

/-- `existingSlugEntries.get(s)`. -/
def slugMapGet (m : List (String × Nat)) (s : String) : Option Nat :=
  (m.find? (fun e => e.1 = s)).map (fun e => e.2)

/-- `++existingSlugEntry.count`: increment the entry with key `s` in place. -/
def slugMapInc (m : List (String × Nat)) (s : String) : List (String × Nat) :=
  m.map (fun e => if e.1 = s then (e.1, e.2 + 1) else e)

/-- The slug chosen for a heading whose whole line slugifies to `baseSlug`,
together with the updated `existingSlugEntries` map: on a collision the
counter is pre-incremented and the base slug suffixed with `-count` is
re-slugified; on a fresh slug the counter starts at `0`. -/
def nextSlug (slugify : String → String) (slugCounts : List (String × Nat))
    (baseSlug : String) : String × List (String × Nat) :=
  match slugMapGet slugCounts baseSlug with
  | some count => (slugify (baseSlug ++ "-" ++ Nat.repr (count + 1)), slugMapInc slugCounts baseSlug)
  | none => (baseSlug, slugCounts ++ [(baseSlug, 0)])

/-- First phase of `TableOfContents.buildToc`: walk the `'heading_open'`
tokens that carry a `map`, assigning slugs via `existingSlugEntries` and
building entries whose `sectionLocation` is provisionally the
`headerLocation` (populated by the second phase). -/
def buildTocHeadings (slugify : String → String) (doc : Document) :
    List Token → List (String × Nat) → List TocEntry
  | [], _ => []
  | tok :: rest, slugCounts =>
    if tok.type = "heading_open" then
      match tok.map with
      | none => buildTocHeadings slugify doc rest slugCounts
      | some mp =>
        let lineNumber := mp.1
        let lineText := lineAt doc lineNumber
        let s := nextSlug slugify slugCounts (slugify lineText)
        { slug := s.1
          text := getHeaderText lineText
          level := getHeaderLevel tok.markup
          line := lineNumber
          sectionLocation := headerLocationOf doc lineNumber
          headerLocation := headerLocationOf doc lineNumber
          headerTextLocation := headerTextLocationOf doc lineNumber } ::
          buildTocHeadings slugify doc rest s.2
    else buildTocHeadings slugify doc rest slugCounts

/-- The `for` loop inside the second phase of `buildToc`: scan the entries
after `startIndex` and return `line - 1` of the first one whose level is
less than or equal to `level` (`none` when the loop never breaks). -/
def findSectionEndLine (level : Nat) : List TocEntry → Option Nat
  | [] => none
  | e :: rest => if e.level ≤ level then some (e.line - 1) else findSectionEndLine level rest

/-- `end ?? document.lineCount - 1` for the entry at `startIndex`. -/
def sectionEndLine (doc : Document) (toc : List TocEntry) (startIndex : Nat)
    (entry : TocEntry) : Nat :=
  (findSectionEndLine entry.level (toc.drop (startIndex + 1))).getD (doc.lines.length - 1)

/-- The body of the `toc.map((entry, startIndex) => …)` closure: replace the
entry's `sectionLocation` by the range from its start to the end of
`sectionEndLine`. -/
def withSectionLocation (doc : Document) (toc : List TocEntry) (startIndex : Nat)
    (entry : TocEntry) : TocEntry :=
  let endLine := sectionEndLine doc toc startIndex entry
  { entry with
    sectionLocation :=
      ⟨doc.uri, ⟨entry.sectionLocation.range.start, ⟨endLine, (lineAt doc endLine).length⟩⟩⟩ }

/-- `toc.map((entry, startIndex) => …)` as an index-carrying recursion. -/
def applySectionLocations (doc : Document) (toc : List TocEntry) :
    Nat → List TocEntry → List TocEntry
  | _, [] => []
  | i, e :: rest => withSectionLocation doc toc i e :: applySectionLocations doc toc (i + 1) rest

/-- `TableOfContents.buildToc` (tokenisation is external, so the token list is
an input; the slugifier is the parser's, so it is a parameter). -/
def buildToc (slugify : String → String) (doc : Document) (tokens : List Token) :
    List TocEntry :=
  let toc := buildTocHeadings slugify doc tokens []
  applySectionLocations doc toc 0 toc

/-- Modelled from the spec: the parser's slugifier (`githubSlugifier` in
`slugify.ts`, which is not part of the reviewed sources) computes "a
normalized, URL-safe identifier derived from heading text".  Letters are
lowercased, digits kept, spaces and dashes become dashes, and every other
character is dropped. -/
def specSlugifyChar (c : Char) : List Char :=
  if c.isAlpha ∨ c.isDigit then [c.toLower]
  else if c = ' ' ∨ c = '-' then ['-']
  else []

/-- Modelled from the spec: `Slugifier.fromHeading`, see `specSlugifyChar`. -/
def specSlugify (s : String) : String :=
  String.mk (s.data.map specSlugifyChar).flatten

/-! ## Document symbols (`MdDocumentSymbolProvider`)

A `vscode.DocumentSymbol` produced by `toDocumentSymbol` keeps the entry's
name and ranges; we carry the originating `TocEntry` so that the heading's
level stays visible in the tree. -/

/-- A `vscode.DocumentSymbol` built by `toDocumentSymbol`, with the entry it
was built from and the children pushed into it by `buildTree`. -/
inductive DocSym where
  | node (entry : TocEntry) (children : List DocSym)

/-- The heading level of the entry a symbol was built from. -/
def DocSym.level : DocSym → Nat
  | .node e _ => e.level

/-- The children array of a symbol. -/
def DocSym.children : DocSym → List DocSym
  | .node _ cs => cs

/-- `MdDocumentSymbolProvider.getSymbolName`. -/
def getSymbolName (entry : TocEntry) : String :=
  String.mk (List.replicate entry.level '#') ++ " " ++ entry.text

/-- The name of a produced symbol. -/
def DocSym.name : DocSym → String
  | .node e _ => getSymbolName e

/-- `d` is a strict descendant of `a` in the symbol tree: a child, or a
descendant of a child. -/
inductive Desc : DocSym → DocSym → Prop
  | child {a c} : c ∈ a.children → Desc a c
  | trans {a b c} : Desc a b → Desc b c → Desc a c

/-- Every child of every node in the tree has a strictly greater level than
its parent. -/
inductive LevelStrict : DocSym → Prop
  | node {e cs} : (∀ c ∈ cs, e.level < DocSym.level c) → (∀ c ∈ cs, LevelStrict c) →
      LevelStrict (.node e cs)

/-! `buildTree` mutates a chain of `MarkdownSymbol`s whose `children` arrays
alias the symbols already pushed into the tree: the chain root (level
`-Infinity`) plus one link per symbol on the current rightmost path, each
link's level strictly above its parent's.  We embed the chain as a stack of
frames (top first; the empty stack is the `-Infinity` root, whose `children`
is the root accumulator): popping a frame completes its symbol with the
children collected so far and pushes it onto the parent's collection, which
is exactly what the in-place `parent.children.push(symbol)` aliasing
produces. -/

/-- One link of the `MarkdownSymbol` chain: the entry whose symbol owns the
`children` array, plus the children pushed into that array so far. -/
structure SymFrame where
  entry : TocEntry
  children : List DocSym

/-- The symbol a frame has accumulated. -/
def completeFrame (f : SymFrame) : DocSym := .node f.entry f.children

/-- Continue the `while (entry.level <= parent.level) parent = parent.parent`
walk after at least one pop: `t` is the symbol completed by the previous pop
and is appended to the next frame's children before that frame is examined. -/
def popCarry (lvl : Nat) (t : DocSym) : List SymFrame → List DocSym → List SymFrame × List DocSym
  | [], root => ([], root ++ [t])
  | g :: gs, root =>
    if lvl ≤ g.entry.level then
      popCarry lvl (completeFrame ⟨g.entry, g.children ++ [t]⟩) gs root
    else (⟨g.entry, g.children ++ [t]⟩ :: gs, root)

/-- The `while (entry.level <= parent.level)` loop of `buildTree`. -/
def popWhile (lvl : Nat) (stack : List SymFrame) (root : List DocSym) :
    List SymFrame × List DocSym :=
  match stack with
  | [] => ([], root)
  | f :: rest =>
    if lvl ≤ f.entry.level then popCarry lvl (completeFrame f) rest root
    else (f :: rest, root)

/-- One recursive step of `buildTree`: pop to the right parent, push the
entry's fresh symbol (empty children) there and descend with the new chain
link. -/
def treeStep (acc : List SymFrame × List DocSym) (entry : TocEntry) :
    List SymFrame × List DocSym :=
  let p := popWhile entry.level acc.1 acc.2
  (⟨entry, []⟩ :: p.1, p.2)

/-- Unwind the remaining chain when the entry list is exhausted. -/
def popAllAux (t : DocSym) : List SymFrame → List DocSym → List DocSym
  | [], root => root ++ [t]
  | g :: gs, root => popAllAux (completeFrame ⟨g.entry, g.children ++ [t]⟩) gs root

/-- Unwind the whole chain, yielding the root's children. -/
def popAll : List SymFrame → List DocSym → List DocSym
  | [], root => root
  | f :: rest, root => popAllAux (completeFrame f) rest root

/-- `MdDocumentSymbolProvider.buildTree` applied to the root symbol: returns
`root.children`. -/
def buildTree (entries : List TocEntry) : List DocSym :=
  let p := entries.foldl treeStep ([], [])
  popAll p.1 p.2

/-- `MdDocumentSymbolProvider.provideDocumentSymbols`: build the table of
contents of the document and tree-ify its entries. -/
def provideDocumentSymbols (slugify : String → String) (doc : Document)
    (tokens : List Token) : List DocSym :=
  buildTree (buildToc slugify doc tokens)

/-! ## User data profiles (`UserDataProfilesMainService`) -/

/-- URIs, compared with `uriIdentityService.extUri.isEqual` in the source,
are modelled as strings compared by equality. -/
abbrev Uri := String

/-- `StoredUserDataProfile` (the `useDefaultFlags` payload is irrelevant to
every claim and omitted). -/
structure StoredUserDataProfile where
  name : String
  location : Uri
  deriving DecidableEq, Repr

/-- `StoredWorkspaceInfo`. -/
structure StoredWorkspaceInfo where
  workspace : Uri
  profile : Uri
  deriving DecidableEq, Repr

/-- `IUserDataProfile` as used here: name, filesystem location and the
default flag. -/
structure UserDataProfile where
  name : String
  location : Uri
  isDefault : Bool
  deriving DecidableEq, Repr

/-- Modelled from the spec: `toUserDataProfile` (in
`common/userDataProfile.ts`, not part of the reviewed sources) builds the
flat profile record for a stored profile; stored profiles are the
non-default ones. -/
def toUserDataProfile (name : String) (location : Uri) : UserDataProfile :=
  ⟨name, location, false⟩

/-- Modelled from the spec: `reviveProfile` (in
`common/userDataProfile.ts`, not part of the reviewed sources) re-hydrates a
profile record; on our flat records it is the identity. -/
def reviveProfile (p : UserDataProfile) : UserDataProfile := p

/-- `ISingleFolderWorkspaceIdentifier` (a folder uri) or
`IWorkspaceIdentifier` (a config-file path). -/
inductive WorkspaceIdentifier where
  | folder (uri : Uri)
  | workspace (configPath : Uri)
  deriving DecidableEq, Repr

/-- `UserDataProfilesMainService.getWorkspace`. -/
def getWorkspace : WorkspaceIdentifier → Uri
  | .folder uri => uri
  | .workspace configPath => configPath

/-- The persistent state the service reads and writes: the two state-store
slots (`PROFILES_KEY` and `WORKSPACE_PROFILE_INFO_KEY`), plus the fixed
`profilesHome` and default profile inherited from the base service. -/
structure ServiceState where
  profilesHome : Uri
  defaultProfile : UserDataProfile
  storedProfiles : List StoredUserDataProfile
  storedWorkspaceInfos : List StoredWorkspaceInfo
  deriving DecidableEq, Repr

/-- Externally visible actions of the service, in program order: folder
creation, the two will-events, the settling of all joiner promises, file
deletions (`fileService.del`), state-store writes (`setItem`), and the
did-change notification fired by the `storedProfiles` setter. -/
inductive Effect where
  | createFolder (uri : Uri)
  | fireWillCreateProfile (profile : UserDataProfile)
  | fireWillRemoveProfile (profile : UserDataProfile)
  | settleJoiners (joiners : List Nat)
  | del (uri : Uri) (recursive : Bool)
  | setItemProfiles (profiles : List StoredUserDataProfile)
  | setItemWorkspaces (infos : List StoredWorkspaceInfo)
  | fireDidChangeProfiles (profiles : List UserDataProfile)
  deriving DecidableEq, Repr

/-- `profilesObject.profiles`: the hydrated stored profiles with the default
profile unshifted in front. -/
def profilesOf (st : ServiceState) : List UserDataProfile :=
  st.defaultProfile :: st.storedProfiles.map (fun sp => toUserDataProfile sp.name sp.location)

/-- `ResourceMap.set`: overwrite the entry with the same key, else append. -/
def resourceMapSet (m : List (Uri × UserDataProfile)) (k : Uri) (v : UserDataProfile) :
    List (Uri × UserDataProfile) :=
  if m.any (fun e => e.1 = k) then m.map (fun e => if e.1 = k then (k, v) else e)
  else m ++ [(k, v)]

/-- The body of the reduce building `profilesObject.workspaces`: resolve the
association's profile location in the profile list and, when found, set the
workspace's entry. -/
def workspacesStep (st : ServiceState) (ws : List (Uri × UserDataProfile))
    (info : StoredWorkspaceInfo) : List (Uri × UserDataProfile) :=
  match (profilesOf st).find? (fun p => p.location = info.profile) with
  | some profile => resourceMapSet ws info.workspace profile
  | none => ws

/-- `profilesObject.workspaces`: the reduce over `storedWorskpaceInfos`,
keeping only associations whose profile location resolves in the profile
list. -/
def workspacesOf (st : ServiceState) : List (Uri × UserDataProfile) :=
  st.storedWorkspaceInfos.foldl (workspacesStep st) []

/-- `UserDataProfilesMainService.getProfile`. -/
def getProfile (st : ServiceState) (workspaceIdentifier : WorkspaceIdentifier) :
    UserDataProfile :=
  (((workspacesOf st).find? (fun e => e.1 = getWorkspace workspaceIdentifier)).map
      (fun e => e.2)).getD st.defaultProfile

/-- The `storedProfiles` setter: write the slot and fire
`onDidChangeProfiles` with the fresh profile list (the `_profilesObject`
cache reset is invisible here because the model recomputes). -/
def setStoredProfiles (st : ServiceState) (ps : List StoredUserDataProfile) :
    ServiceState × List Effect :=
  let st' := { st with storedProfiles := ps }
  (st', [.setItemProfiles ps, .fireDidChangeProfiles (profilesOf st')])

/-- The `storedWorskpaceInfos` setter: write the slot. -/
def setStoredWorkspaceInfos (st : ServiceState) (infos : List StoredWorkspaceInfo) :
    ServiceState × List Effect :=
  ({ st with storedWorkspaceInfos := infos }, [.setItemWorkspaces infos])

/-- `UserDataProfilesMainService.setProfileForWorkspace`: drop any stored
association for the workspace and, unless the profile is the default one,
append the new association; returns the hydrated profile found at the
profile's location. -/
def setProfileForWorkspace (st : ServiceState) (profile : UserDataProfile)
    (workspaceIdentifier : WorkspaceIdentifier) :
    ServiceState × List Effect × Option UserDataProfile :=
  let profile := reviveProfile profile
  let workspace := getWorkspace workspaceIdentifier
  let infos := st.storedWorkspaceInfos.filter (fun i => ¬ (i.workspace = workspace))
  let infos := if ¬ profile.isDefault then infos ++ [⟨workspace, profile.location⟩] else infos
  let p := setStoredWorkspaceInfos st infos
  (p.1, p.2, (profilesOf p.1).find? (fun q => q.location = profile.location))

/-- `UserDataProfilesMainService.createProfile`.  The file-system existence
check on `profilesHome` is an external query, passed in as
`profilesHomeExists`; `joiners` are the promises listeners push into the
will-create event.  Returns the result (the `find!` at the end modelled as
an `Option`), the final stored state, and the effect trace. -/
def createProfile (st : ServiceState) (profile : UserDataProfile)
    (workspaceIdentifier : Option WorkspaceIdentifier) (profilesHomeExists : Bool)
    (joiners : List Nat) :
    Except String (Option UserDataProfile) × ServiceState × List Effect :=
  let profile := reviveProfile profile
  if st.storedProfiles.any (fun p => p.name = profile.name) then
    (.error ("Profile with name " ++ profile.name ++ " already exists"), st, [])
  else
    let effs0 : List Effect :=
      if ¬ profilesHomeExists then [.createFolder st.profilesHome] else []
    let effs1 := effs0 ++ [.fireWillCreateProfile profile, .settleJoiners joiners]
    let storedProfile : StoredUserDataProfile := ⟨profile.name, profile.location⟩
    let p1 := setStoredProfiles st (st.storedProfiles ++ [storedProfile])
    let p2 :=
      match workspaceIdentifier with
      | some wid =>
        let r := setProfileForWorkspace p1.1 profile wid
        (r.1, r.2.1)
      | none => (p1.1, ([] : List Effect))
    (.ok ((profilesOf p2.1).find? (fun q => q.location = profile.location)),
      p2.1, effs1 ++ p1.2 ++ p2.2)

/-- `UserDataProfilesMainService.removeProfile`: refuse the default profile,
then refuse locations absent from the stored list; otherwise fire
will-remove, settle the joiners, delete either the whole `profilesHome`
(when the profile list counts exactly two, default included) or just the
profile's location, and drop the profile from both slots. -/
def removeProfile (st : ServiceState) (profile : UserDataProfile)
    (joiners : List Nat) : Except String Unit × ServiceState × List Effect :=
  if profile.isDefault then (.error "Cannot remove default profile", st, [])
  else
    let profile := reviveProfile profile
    if ¬ st.storedProfiles.any (fun p => p.location = profile.location) then
      (.error ("Profile with name " ++ profile.name ++ " does not exist"), st, [])
    else
      let effs1 : List Effect := [.fireWillRemoveProfile profile, .settleJoiners joiners]
      let delEff : Effect :=
        if (profilesOf st).length = 2 then .del st.profilesHome true
        else .del profile.location true
      let p1 := setStoredWorkspaceInfos st
        (st.storedWorkspaceInfos.filter (fun i => ¬ (i.profile = profile.location)))
      let p2 := setStoredProfiles p1.1
        (p1.1.storedProfiles.filter (fun p => ¬ (p.location = profile.location)))
      (.ok (), p2.1, effs1 ++ [delEff] ++ p1.2 ++ p2.2)

/-- The effects that commit the operation: state-store writes and file
deletions. -/
def Effect.isCommit : Effect → Bool
  | .del _ _ => true
  | .setItemProfiles _ => true
  | .setItemWorkspaces _ => true
  | _ => false

/-- The file-deletion effects. -/
def Effect.isDel : Effect → Bool
  | .del _ _ => true
  | _ => false

/-- No stored workspace association references the default profile's
location. -/
def NoDefaultAssociation (st : ServiceState) : Prop :=
  ∀ i ∈ st.storedWorkspaceInfos, i.profile ≠ st.defaultProfile.location

/-- Every promise handed to the will-event's `join` is settled before any
commit: every commit effect in the trace is preceded by the settling of the
full joiner list, with no commit before it. -/
def SettledBeforeCommit (tr : List Effect) (joiners : List Nat) : Prop :=
  ∀ e ∈ tr, e.isCommit = true →
    ∃ l1 l2, tr = l1 ++ Effect.settleJoiners joiners :: l2 ∧ ∀ e' ∈ l1, e'.isCommit = false

/-! ### Specification-side formulations -/

/-- The source line numbers of the headings `buildToc` walks: the
`'heading_open'` tokens that carry a `map`. -/
def headingLines (tokens : List Token) : List Nat :=
  (tokens.filter (fun t => t.type = "heading_open")).filterMap
    (fun t => t.map.map (fun m => m.1))

/-- The heading line texts `buildToc` slugifies, in document order. -/
def headingTexts (doc : Document) (tokens : List Token) : List String :=
  (tokens.filter (fun t => t.type = "heading_open")).filterMap
    (fun t => t.map.map (fun m => lineAt doc m.1))

/-- How many of the heading texts `pre` slugify to the base slug `s`. -/
def baseCount (slugify : String → String) (pre : List String) (s : String) : Nat :=
  (pre.filter (fun t => slugify t = s)).length

/-- The slug the disambiguation rule assigns to the `i`-th heading, stated
independently of the traversal: its base slug when no earlier heading shares
that base slug, otherwise the base slug suffixed with the number of earlier
headings sharing it, re-slugified. -/
def specSlugAt (slugify : String → String) (texts : List String) (i : Nat) : String :=
  let base := slugify (texts.getD i "")
  if baseCount slugify (texts.take i) base = 0 then base
  else slugify (base ++ "-" ++ Nat.repr (baseCount slugify (texts.take i) base))

/-- The level of the top chain link is below `lvl` (vacuous at the root). -/
def stackLevelLt : List SymFrame → Nat → Prop
  | [], _ => True
  | g :: _, lvl => g.entry.level < lvl

/-- The invariant of the `buildTree` chain: each frame's collected children
are level-strict subtrees rooted strictly below the frame's own level, and
the frame levels strictly increase towards the top of the stack. -/
def framesOK : List SymFrame → Prop
  | [] => True
  | f :: rest =>
    (∀ c ∈ f.children, f.entry.level < c.level ∧ LevelStrict c) ∧
      stackLevelLt rest f.entry.level ∧ framesOK rest

/-! ### Concrete fixtures for witnesses and counterexamples -/

/-- A three-heading document whose third heading's own slug equals the
disambiguated slug of the second: heading texts `# a`, `# a`, `# a-1`. -/
def cexDoc : Document := ⟨"cex.md", ["# a", "# a", "# a-1"]⟩

/-- The `'heading_open'` tokens of `cexDoc`. -/
def cexTokens : List Token :=
  [⟨"heading_open", some (0, 1), "#"⟩, ⟨"heading_open", some (1, 2), "#"⟩,
    ⟨"heading_open", some (2, 3), "#"⟩]

/-- A document with headings `# h`, `## s`, `# h2` on lines 0, 1, 2. -/
def wDoc : Document := ⟨"w.md", ["# h", "## s", "# h2"]⟩

/-- The `'heading_open'` tokens of `wDoc`. -/
def wTokens : List Token :=
  [⟨"heading_open", some (0, 1), "#"⟩, ⟨"heading_open", some (1, 2), "##"⟩,
    ⟨"heading_open", some (2, 3), "#"⟩]

/-- The table-of-contents entry of `# h` in `wDoc`. -/
def wE1 : TocEntry :=
  ⟨"-h", "h", 1, 0, ⟨"w.md", ⟨⟨0, 0⟩, ⟨1, 4⟩⟩⟩, ⟨"w.md", ⟨⟨0, 0⟩, ⟨0, 3⟩⟩⟩,
    ⟨"w.md", ⟨⟨0, 2⟩, ⟨0, 3⟩⟩⟩⟩

/-- The table-of-contents entry of `## s` in `wDoc`. -/
def wE2 : TocEntry :=
  ⟨"-s", "s", 2, 1, ⟨"w.md", ⟨⟨1, 0⟩, ⟨1, 4⟩⟩⟩, ⟨"w.md", ⟨⟨1, 0⟩, ⟨1, 4⟩⟩⟩,
    ⟨"w.md", ⟨⟨1, 3⟩, ⟨1, 4⟩⟩⟩⟩

/-- The table-of-contents entry of `# h2` in `wDoc`. -/
def wE3 : TocEntry :=
  ⟨"-h2", "h2", 1, 2, ⟨"w.md", ⟨⟨2, 0⟩, ⟨2, 4⟩⟩⟩, ⟨"w.md", ⟨⟨2, 0⟩, ⟨2, 4⟩⟩⟩,
    ⟨"w.md", ⟨⟨2, 2⟩, ⟨2, 4⟩⟩⟩⟩

/-- A service state with a default profile and two stored profiles, one of
them associated to workspace `w1`. -/
def wSt : ServiceState :=
  ⟨"home", ⟨"Default", "home/default", true⟩,
    [⟨"p1", "home/p1"⟩, ⟨"p2", "home/p2"⟩],
    [⟨"w1", "home/p1"⟩, ⟨"w2", "gone/away"⟩]⟩

/-- A service state whose only stored profile is `p1`. -/
def wStOne : ServiceState :=
  ⟨"home", ⟨"Default", "home/default", true⟩, [⟨"p1", "home/p1"⟩], [⟨"w1", "home/p1"⟩]⟩

/-- The stored profile `p1` of `wSt` as a full profile record. -/
def wP1 : UserDataProfile := ⟨"p1", "home/p1", false⟩

/-- A profile absent from `wSt`'s stored list. -/
def wPNew : UserDataProfile := ⟨"fresh", "home/fresh", false⟩

/-- A service state holding only the default profile and no associations. -/
def cexSt : ServiceState := ⟨"home", ⟨"Default", "home/default", true⟩, [], []⟩

/-- A profile that is not flagged default yet sits at the default profile's
location. -/
def cexP : UserDataProfile := ⟨"evil", "home/default", false⟩

/-! ## Theorems -/

/-- C4: for every stored state, `removeProfile` called with the default
profile throws, and the stored profile list, the stored workspace
associations, and the file system are left unchanged (no will-remove event
fires): the call returns the error with the state untouched and an empty
effect trace. -/
theorem removeProfile_default_profile_rejected (st : ServiceState)
    (p : UserDataProfile) (joiners : List Nat) (h : p.isDefault = true) :
    removeProfile st p joiners = (.error "Cannot remove default profile", st, []) := by
  simp [removeProfile, h]

/-- Witness for `removeProfile_default_profile_rejected` at a concrete
state and profile. -/
theorem removeProfile_default_profile_rejected_witness :
    (⟨"Default", "home/default", true⟩ : UserDataProfile).isDefault = true ∧
      removeProfile wSt ⟨"Default", "home/default", true⟩ [1] =
        (.error "Cannot remove default profile", wSt, []) :=
  ⟨rfl, removeProfile_default_profile_rejected wSt ⟨"Default", "home/default", true⟩ [1] rfl⟩

/-- C6: for every stored state, `createProfile` called with a profile whose
name duplicates the name of a stored profile throws the already-exists
error, and on that error the stored profile list and workspace associations
are unchanged and no will-create event fires: the call returns the error
with the state untouched and an empty effect trace. -/
theorem createProfile_duplicate_name_rejected (st : ServiceState)
    (p : UserDataProfile) (wid : Option WorkspaceIdentifier)
    (profilesHomeExists : Bool) (joiners : List Nat)
    (h : st.storedProfiles.any (fun q => q.name = p.name) = true) :
    createProfile st p wid profilesHomeExists joiners =
      (.error ("Profile with name " ++ p.name ++ " already exists"), st, []) := by
  simp only [createProfile, reviveProfile]
  rw [if_pos h]

/-- Witness for `createProfile_duplicate_name_rejected` at a concrete state
and profile. -/
theorem createProfile_duplicate_name_rejected_witness :
    wSt.storedProfiles.any (fun q => q.name = (⟨"p1", "other", false⟩ : UserDataProfile).name)
        = true ∧
      createProfile wSt ⟨"p1", "other", false⟩ none true [2] =
        (.error ("Profile with name " ++ "p1" ++ " already exists"), wSt, []) :=
  ⟨by decide,
    createProfile_duplicate_name_rejected wSt ⟨"p1", "other", false⟩ none true [2] (by decide)⟩

/-- C7: for every stored state, `removeProfile` called with a non-default
profile whose location matches no stored profile throws the does-not-exist
error, and on that error the stored state is unchanged, no will-remove
event fires, and no file deletion occurs: the call returns the error with
the state untouched and an empty effect trace. -/
theorem removeProfile_missing_profile_rejected (st : ServiceState)
    (p : UserDataProfile) (joiners : List Nat) (h1 : p.isDefault = false)
    (h2 : st.storedProfiles.any (fun q => q.location = p.location) = false) :
    removeProfile st p joiners =
      (.error ("Profile with name " ++ p.name ++ " does not exist"), st, []) := by
  simp only [removeProfile, reviveProfile, h1, Bool.false_eq_true, if_false]
  rw [if_pos (by simp [h2])]

/-- Witness for `removeProfile_missing_profile_rejected` at a concrete
state and profile. -/
theorem removeProfile_missing_profile_rejected_witness :
    wPNew.isDefault = false ∧
      wSt.storedProfiles.any (fun q => q.location = wPNew.location) = false ∧
      removeProfile wSt wPNew [3] =
        (.error ("Profile with name " ++ wPNew.name ++ " does not exist"), wSt, []) :=
  ⟨rfl, by decide, removeProfile_missing_profile_rejected wSt wPNew [3] rfl (by decide)⟩

/-- C5: `removeProfile` on an existing non-default profile performs exactly
one deletion, of the whole profiles home exactly when the profile list has
length two counting the default, i.e. exactly when the removed profile is
the only stored (non-default) profile, and otherwise of the removed
profile's own location. -/
theorem removeProfile_del_target (st : ServiceState) (p : UserDataProfile)
    (joiners : List Nat) (h1 : p.isDefault = false)
    (h2 : st.storedProfiles.any (fun q => q.location = p.location) = true) :
    (removeProfile st p joiners).2.2.filter Effect.isDel
        = [Effect.del (if (profilesOf st).length = 2 then st.profilesHome else p.location) true]
      ∧ ((profilesOf st).length = 2 ↔ st.storedProfiles.length = 1)
      ∧ ((profilesOf st).length = 2 ↔
          ∃ q, st.storedProfiles = [q] ∧ q.location = p.location) := by
  have hlen : (profilesOf st).length = 2 ↔ st.storedProfiles.length = 1 := by
    simp [profilesOf]
  refine ⟨?_, hlen, ?_⟩
  · simp only [removeProfile, reviveProfile, h1, Bool.false_eq_true, if_false, h2]
    simp [setStoredWorkspaceInfos, setStoredProfiles, Effect.isDel]
    split <;> simp [Effect.isDel]
  · rw [hlen]
    constructor
    · intro hone
      obtain ⟨q, hq⟩ := List.length_eq_one.mp hone
      refine ⟨q, hq, ?_⟩
      rw [hq] at h2
      simpa using h2
    · rintro ⟨q, hq, -⟩
      rw [hq]
      rfl

/-- Witness for `removeProfile_del_target`: removing the only stored profile
deletes the profiles home. -/
theorem removeProfile_del_target_witness :
    wP1.isDefault = false ∧
      wStOne.storedProfiles.any (fun q => q.location = wP1.location) = true ∧
      (removeProfile wStOne wP1 [4]).2.2.filter Effect.isDel
        = [Effect.del (if (profilesOf wStOne).length = 2 then wStOne.profilesHome
            else wP1.location) true] :=
  ⟨rfl, by decide, (removeProfile_del_target wStOne wP1 [4] rfl (by decide)).1⟩

/-- Members of a `ResourceMap` after a `set` either come from the original
map or are the set pair itself. -/
theorem mem_resourceMapSet {m : List (Uri × UserDataProfile)} {k : Uri}
    {v : UserDataProfile} {e : Uri × UserDataProfile}
    (he : e ∈ resourceMapSet m k v) : e ∈ m ∨ e = (k, v) := by
  unfold resourceMapSet at he
  split at he
  · obtain ⟨x, hx, hfx⟩ := List.mem_map.mp he
    by_cases hk : x.1 = k
    · rw [if_pos hk] at hfx
      exact Or.inr hfx.symm
    · rw [if_neg hk] at hfx
      exact Or.inl (hfx ▸ hx)
  · rcases List.mem_append.mp he with h | h
    · exact Or.inl h
    · exact Or.inr (List.mem_singleton.mp h)

/-- Keys of a `ResourceMap` after a `set` either come from the original map
or are the set key. -/
theorem key_resourceMapSet {m : List (Uri × UserDataProfile)} {k : Uri}
    {v : UserDataProfile} {e : Uri × UserDataProfile}
    (he : e ∈ resourceMapSet m k v) : (∃ x ∈ m, x.1 = e.1) ∨ e.1 = k := by
  rcases mem_resourceMapSet he with h | h
  · exact Or.inl ⟨e, h, rfl⟩
  · exact Or.inr (by rw [h])

/-- Every value stored in `profilesObject.workspaces` is a profile of the
profile list. -/
theorem workspacesOf_values (st : ServiceState) :
    ∀ e ∈ workspacesOf st, e.2 ∈ profilesOf st := by
  have aux : ∀ (infos : List StoredWorkspaceInfo) (acc : List (Uri × UserDataProfile)),
      (∀ e ∈ acc, e.2 ∈ profilesOf st) →
      ∀ e ∈ infos.foldl (workspacesStep st) acc, e.2 ∈ profilesOf st := by
    intro infos
    induction infos with
    | nil => intro acc hacc e he; exact hacc e he
    | cons info rest ih =>
      intro acc hacc e he
      refine ih (workspacesStep st acc info) ?_ e he
      intro x hx
      unfold workspacesStep at hx
      split at hx
      · next profile hfind =>
        rcases mem_resourceMapSet hx with h | h
        · exact hacc x h
        · rw [h]
          exact List.mem_of_find?_eq_some hfind
      · exact hacc x hx
  exact aux st.storedWorkspaceInfos [] (by simp)

/-- C9: `getProfile` is total, always yielding a member of the profile list,
and yields the default profile both when the workspace has no stored
association and when every stored association for it references a profile
location no longer present in the profile list. -/
theorem getProfile_total (st : ServiceState) (wid : WorkspaceIdentifier) :
    getProfile st wid ∈ profilesOf st ∧
      ((∀ i ∈ st.storedWorkspaceInfos,
          i.workspace ≠ getWorkspace wid ∨ ∀ q ∈ profilesOf st, q.location ≠ i.profile) →
        getProfile st wid = st.defaultProfile) := by
  constructor
  · unfold getProfile
    cases hfind : (workspacesOf st).find? (fun e => e.1 = getWorkspace wid) with
    | none => exact List.mem_cons_self _ _
    | some e => exact workspacesOf_values st e (List.mem_of_find?_eq_some hfind)
  · intro h
    have aux : ∀ (infos : List StoredWorkspaceInfo) (acc : List (Uri × UserDataProfile)),
        (∀ i ∈ infos,
          i.workspace ≠ getWorkspace wid ∨ ∀ q ∈ profilesOf st, q.location ≠ i.profile) →
        (∀ e ∈ acc, e.1 ≠ getWorkspace wid) →
        ∀ e ∈ infos.foldl (workspacesStep st) acc, e.1 ≠ getWorkspace wid := by
      intro infos
      induction infos with
      | nil => intro acc _ hacc e he; exact hacc e he
      | cons info rest ih =>
        intro acc hinfo hacc e he
        refine ih (workspacesStep st acc info) (fun i hi => hinfo i (by simp [hi])) ?_ e he
        intro x hx
        unfold workspacesStep at hx
        split at hx
        case h_1 profile hfind =>
          rcases hinfo info (by simp) with hw | hq
          · rcases key_resourceMapSet hx with ⟨y, hy, hyx⟩ | hxk
            · rw [← hyx]; exact hacc y hy
            · rw [hxk]; exact hw
          · have hmem := List.mem_of_find?_eq_some hfind
            have hloc := hq profile hmem
            have hpred := List.find?_some hfind
            simp only [decide_eq_true_eq] at hpred
            exact absurd hpred hloc
        case h_2 => exact hacc x hx
    have hnone : (workspacesOf st).find? (fun e => e.1 = getWorkspace wid) = none := by
      rw [List.find?_eq_none]
      intro e he
      simpa using aux st.storedWorkspaceInfos [] h (by simp) e he
    unfold getProfile
    rw [hnone]
    rfl

/-- Witness for `getProfile_total`: a workspace whose only association is
dangling resolves to the default profile. -/
theorem getProfile_total_witness :
    getProfile wSt (.folder "w2") ∈ profilesOf wSt ∧
      getProfile wSt (.folder "w2") = wSt.defaultProfile :=
  ⟨(getProfile_total wSt (.folder "w2")).1,
    (getProfile_total wSt (.folder "w2")).2 (by decide)⟩

/-- The state left by `setProfileForWorkspace`: the workspace's old
associations are dropped and, for a non-default profile, the new
association appended. -/
theorem setProfileForWorkspace_state (st : ServiceState) (p : UserDataProfile)
    (w : WorkspaceIdentifier) :
    (setProfileForWorkspace st p w).1 =
      { st with storedWorkspaceInfos :=
          if p.isDefault = true then
            st.storedWorkspaceInfos.filter (fun i => ¬ (i.workspace = getWorkspace w))
          else
            st.storedWorkspaceInfos.filter (fun i => ¬ (i.workspace = getWorkspace w)) ++
              [⟨getWorkspace w, p.location⟩] } := by
  by_cases h : p.isDefault <;>
    simp [setProfileForWorkspace, setStoredWorkspaceInfos, reviveProfile, h]

/-- `setProfileForWorkspace` preserves `NoDefaultAssociation` whenever a
profile argument sitting at the default location carries the default flag. -/
theorem noDefaultAssociation_setProfileForWorkspace (st : ServiceState)
    (p : UserDataProfile) (w : WorkspaceIdentifier)
    (hp : p.location = st.defaultProfile.location → p.isDefault = true)
    (hinv : NoDefaultAssociation st) :
    NoDefaultAssociation (setProfileForWorkspace st p w).1 := by
  rw [setProfileForWorkspace_state]
  intro i hi
  simp only at hi ⊢
  by_cases hd : p.isDefault = true
  · rw [if_pos hd] at hi
    exact hinv i (List.mem_of_mem_filter hi)
  · rw [if_neg hd] at hi
    rcases List.mem_append.mp hi with h | h
    · exact hinv i (List.mem_of_mem_filter h)
    · rw [List.mem_singleton.mp h]
      intro hloc
      exact hd (hp hloc)

/-- C10 counterexample: from an association-free state, a single
`setProfileForWorkspace` call with a profile that is not flagged default but
sits at the default profile's location stores an association referencing
the default profile's location. -/
theorem setProfileForWorkspace_default_location_leak :
    NoDefaultAssociation cexSt ∧
      ¬ NoDefaultAssociation (setProfileForWorkspace cexSt cexP (.folder "ws")).1 := by
  constructor
  · intro i hi
    simp [cexSt] at hi
  · intro hinv
    exact hinv ⟨"ws", "home/default"⟩ (by decide) rfl

/-- C10 (amended): `setProfileForWorkspace` called with the default profile
removes any stored association for that workspace instead of storing one,
and every operation preserves the invariant that no stored association
references the default profile's location, provided every profile argument
located at the default location carries the default flag (without that
proviso the invariant fails, see the counterexample). -/
theorem default_profile_association_invariant :
    (∀ (st : ServiceState) (p : UserDataProfile) (w : WorkspaceIdentifier),
        p.isDefault = true →
        ∀ i ∈ (setProfileForWorkspace st p w).1.storedWorkspaceInfos,
          i.workspace ≠ getWorkspace w ∧ i ∈ st.storedWorkspaceInfos) ∧
      (∀ (st : ServiceState) (p : UserDataProfile) (w : WorkspaceIdentifier),
        (p.location = st.defaultProfile.location → p.isDefault = true) →
        NoDefaultAssociation st →
        NoDefaultAssociation (setProfileForWorkspace st p w).1) ∧
      (∀ (st : ServiceState) (p : UserDataProfile) (wid : Option WorkspaceIdentifier)
          (profilesHomeExists : Bool) (joiners : List Nat),
        (p.location = st.defaultProfile.location → p.isDefault = true) →
        NoDefaultAssociation st →
        NoDefaultAssociation (createProfile st p wid profilesHomeExists joiners).2.1) ∧
      (∀ (st : ServiceState) (p : UserDataProfile) (joiners : List Nat),
        NoDefaultAssociation st →
        NoDefaultAssociation (removeProfile st p joiners).2.1) := by
  refine ⟨?_, noDefaultAssociation_setProfileForWorkspace, ?_, ?_⟩
  · intro st p w hd i hi
    rw [setProfileForWorkspace_state] at hi
    simp only [if_pos hd] at hi
    have := List.mem_filter.mp hi
    refine ⟨by simpa using this.2, this.1⟩
  · intro st p wid profilesHomeExists joiners hp hinv
    by_cases hdup : st.storedProfiles.any (fun q => q.name = p.name) = true
    · simp only [createProfile, reviveProfile]
      rw [if_pos hdup]
      exact hinv
    · simp only [createProfile, reviveProfile]
      rw [if_neg hdup]
      cases wid with
      | none => exact hinv
      | some w =>
        simp only [setStoredProfiles]
        exact noDefaultAssociation_setProfileForWorkspace _ p w hp hinv
  · intro st p joiners hinv
    by_cases hd : p.isDefault = true
    · simp only [removeProfile]
      rw [if_pos hd]
      exact hinv
    · by_cases hex : st.storedProfiles.any (fun q => q.location = p.location) = true
      · simp only [removeProfile, reviveProfile]
        rw [if_neg hd, if_neg (by simp [hex])]
        intro i hi
        simp only [setStoredProfiles, setStoredWorkspaceInfos] at hi
        exact hinv i (List.mem_of_mem_filter hi)
      · simp only [removeProfile, reviveProfile]
        rw [if_neg hd, if_pos (by simp [hex])]
        exact hinv

/-- Witness for `default_profile_association_invariant`: setting the default
profile for a workspace clears its association, concretely. -/
theorem default_profile_association_invariant_witness :
    wSt.defaultProfile.isDefault = true ∧
      ((⟨"w1", "home/p1"⟩ : StoredWorkspaceInfo) ∈
          (setProfileForWorkspace wSt wSt.defaultProfile (.folder "w9")).1.storedWorkspaceInfos →
        (⟨"w1", "home/p1"⟩ : StoredWorkspaceInfo).workspace ≠ getWorkspace (.folder "w9") ∧
          (⟨"w1", "home/p1"⟩ : StoredWorkspaceInfo) ∈ wSt.storedWorkspaceInfos) ∧
      NoDefaultAssociation (removeProfile wSt wP1 [5]).2.1 :=
  ⟨rfl,
    default_profile_association_invariant.1 wSt wSt.defaultProfile (.folder "w9") rfl
      ⟨"w1", "home/p1"⟩,
    default_profile_association_invariant.2.2.2 wSt wP1 [5]
      (by unfold NoDefaultAssociation; decide)⟩

/-- The empty trace settles trivially. -/
theorem settledBeforeCommit_nil (j : List Nat) : SettledBeforeCommit [] j := by
  intro e he
  simp at he

/-- A trace headed by the settle event settles before its commits. -/
theorem settledBeforeCommit_settle_head (j : List Nat) (tr : List Effect) :
    SettledBeforeCommit (Effect.settleJoiners j :: tr) j := by
  intro e _ _
  exact ⟨[], tr, rfl, by simp⟩

/-- Prepending a non-commit effect preserves settling-before-commits. -/
theorem settledBeforeCommit_cons (e : Effect) (tr : List Effect) (j : List Nat)
    (he : e.isCommit = false) (h : SettledBeforeCommit tr j) :
    SettledBeforeCommit (e :: tr) j := by
  intro x hx hc
  rcases List.mem_cons.mp hx with rfl | hx'
  · rw [he] at hc
    cases hc
  · obtain ⟨l1, l2, heq, hl1⟩ := h x hx' hc
    refine ⟨e :: l1, l2, by rw [heq]; rfl, ?_⟩
    intro e' he'
    rcases List.mem_cons.mp he' with rfl | h'
    · exact he
    · exact hl1 e' h'

/-- Prepending non-commit effects preserves settling-before-commits. -/
theorem settledBeforeCommit_append (pre tr : List Effect) (j : List Nat)
    (hpre : ∀ e ∈ pre, e.isCommit = false) (h : SettledBeforeCommit tr j) :
    SettledBeforeCommit (pre ++ tr) j := by
  induction pre with
  | nil => exact h
  | cons e rest ih =>
    exact settledBeforeCommit_cons e (rest ++ tr) j (hpre e (by simp))
      (ih (fun x hx => hpre x (by simp [hx])))

/-- C8: in both `createProfile` and `removeProfile`, every commit effect
(state-store write or file deletion) in the emitted trace comes strictly
after the settling of the full joiner list collected by the will-event, so
the stored profile list is not written and no file is deleted until all
joiner promises have settled. -/
theorem joiners_settled_before_commits (st : ServiceState) (p : UserDataProfile)
    (wid : Option WorkspaceIdentifier) (profilesHomeExists : Bool) (joiners : List Nat)
    (st' : ServiceState) (p' : UserDataProfile) (joiners' : List Nat) :
    SettledBeforeCommit (createProfile st p wid profilesHomeExists joiners).2.2 joiners ∧
      SettledBeforeCommit (removeProfile st' p' joiners').2.2 joiners' := by
  constructor
  · by_cases hdup : st.storedProfiles.any (fun q => q.name = p.name) = true
    · simp only [createProfile, reviveProfile]
      rw [if_pos hdup]
      exact settledBeforeCommit_nil joiners
    · simp only [createProfile, reviveProfile]
      rw [if_neg hdup]
      cases wid <;>
        · simp only [List.append_assoc, List.cons_append, List.nil_append]
          refine settledBeforeCommit_append _ _ _ ?_
            (settledBeforeCommit_cons _ _ _ rfl (settledBeforeCommit_settle_head _ _))
          intro x hx
          split at hx <;> simp_all [Effect.isCommit]
  · by_cases hd : p'.isDefault = true
    · simp only [removeProfile]
      rw [if_pos hd]
      exact settledBeforeCommit_nil joiners'
    · by_cases hex : st'.storedProfiles.any (fun q => q.location = p'.location) = true
      · simp only [removeProfile, reviveProfile]
        rw [if_neg hd, if_neg (by simp [hex])]
        simp only [List.append_assoc, List.cons_append, List.nil_append]
        exact settledBeforeCommit_cons _ _ _ rfl (settledBeforeCommit_settle_head _ _)
      · simp only [removeProfile, reviveProfile]
        rw [if_neg hd, if_pos (by simp [hex])]
        exact settledBeforeCommit_nil joiners'

/-- Witness for `joiners_settled_before_commits`: a concrete removal whose
trace contains a commit preceded by the settle of its joiner list. -/
theorem joiners_settled_before_commits_witness :
    Effect.del "home/p1" true ∈ (removeProfile wSt wP1 [6]).2.2 ∧
      (Effect.del "home/p1" true).isCommit = true ∧
      (∃ l1 l2, (removeProfile wSt wP1 [6]).2.2 = l1 ++ Effect.settleJoiners [6] :: l2 ∧
        ∀ e' ∈ l1, e'.isCommit = false) :=
  ⟨by decide, rfl,
    (joiners_settled_before_commits wSt wP1 none true [6] wSt wP1 [6]).2
      (Effect.del "home/p1" true) (by decide) rfl⟩

/-- Looking a slug up after appending a fresh zero-count entry. -/
theorem slugMapGet_append (m : List (String × Nat)) (b s : String) :
    slugMapGet (m ++ [(b, 0)]) s =
      (slugMapGet m s).or (if b = s then some 0 else none) := by
  unfold slugMapGet
  rw [List.find?_append]
  cases hm : m.find? (fun e => e.1 = s) with
  | some e => simp
  | none => by_cases hb : b = s <;> simp [List.find?, hb]

/-- Looking a slug up after incrementing the counter of key `b` in place. -/
theorem slugMapGet_inc (m : List (String × Nat)) (b s : String) :
    slugMapGet (slugMapInc m b) s =
      if b = s then (slugMapGet m s).map (fun c => c + 1) else slugMapGet m s := by
  unfold slugMapGet slugMapInc
  rw [List.find?_map]
  have hkey : ((fun e : String × Nat => decide (e.1 = s)) ∘
      (fun e : String × Nat => if e.1 = b then (e.1, e.2 + 1) else e))
      = fun e : String × Nat => decide (e.1 = s) := by
    funext e
    by_cases h : e.1 = b <;> simp [h]
  rw [hkey]
  cases hm : m.find? (fun e : String × Nat => decide (e.1 = s)) with
  | none => by_cases hb : b = s <;> simp [hb]
  | some e =>
    have he : e.1 = s := by simpa using List.find?_some hm
    by_cases hb : b = s
    · have heb : e.1 = b := by rw [he, hb]
      simp [heb, hb]
    · have heb : ¬ e.1 = b := by rw [he]; exact fun h => hb h.symm
      simp [heb, hb]

/-- The second pass of `buildToc` does not touch slugs. -/
theorem applySectionLocations_slugs (doc : Document) (toc : List TocEntry) :
    ∀ (i : Nat) (l : List TocEntry),
      (applySectionLocations doc toc i l).map (fun e => e.slug) = l.map (fun e => e.slug) := by
  intro i l
  induction l generalizing i with
  | nil => rfl
  | cons e rest ih => simp [applySectionLocations, withSectionLocation, ih]

/-- `baseCount` over an appended singleton. -/
theorem baseCount_append (slugify : String → String) (pre : List String)
    (t s : String) :
    baseCount slugify (pre ++ [t]) s
      = baseCount slugify pre s + (if slugify t = s then 1 else 0) := by
  unfold baseCount
  rw [List.filter_append, List.length_append]
  congr 1
  by_cases hts : slugify t = s
  · simp [List.filter, hts]
  · simp [List.filter, hts]

/-- The slugs assigned by the first pass of `buildToc`, characterised against
a processed prefix `pre` of heading texts whose collision counters the map
`m` reflects: the `i`-th remaining heading receives `specSlugAt` of its
global position. -/
theorem buildTocHeadings_slugs (slugify : String → String) (doc : Document) :
    ∀ (tokens : List Token) (m : List (String × Nat)) (pre : List String),
      (∀ s, slugMapGet m s =
        if baseCount slugify pre s = 0 then none
        else some (baseCount slugify pre s - 1)) →
      (buildTocHeadings slugify doc tokens m).map (fun e => e.slug)
        = (List.range (headingTexts doc tokens).length).map
            (fun i => specSlugAt slugify (pre ++ headingTexts doc tokens) (pre.length + i)) := by
  intro tokens
  induction tokens with
  | nil =>
    intro m pre hInv
    simp [buildTocHeadings, headingTexts]
  | cons tok rest ih =>
    intro m pre hInv
    by_cases htype : tok.type = "heading_open"
    · cases hmap : tok.map with
      | none =>
        have hht : headingTexts doc (tok :: rest) = headingTexts doc rest := by
          simp [headingTexts, htype, hmap]
        simp only [buildTocHeadings, htype, if_true, hmap, hht]
        exact ih m pre hInv
      | some mp =>
        have hht : headingTexts doc (tok :: rest)
            = lineAt doc mp.1 :: headingTexts doc rest := by
          simp [headingTexts, htype, hmap]
        have hgetD : (pre ++ lineAt doc mp.1 :: headingTexts doc rest).getD pre.length ""
            = lineAt doc mp.1 := by
          rw [List.getD_eq_getElem?_getD, List.getElem?_append_right (Nat.le_refl _)]
          simp
        have htake : (pre ++ lineAt doc mp.1 :: headingTexts doc rest).take pre.length
            = pre := List.take_left pre (lineAt doc mp.1 :: headingTexts doc rest)
        have hnext1 : (nextSlug slugify m (slugify (lineAt doc mp.1))).1
            = if baseCount slugify pre (slugify (lineAt doc mp.1)) = 0 then
                slugify (lineAt doc mp.1)
              else slugify (slugify (lineAt doc mp.1) ++ "-"
                ++ Nat.repr (baseCount slugify pre (slugify (lineAt doc mp.1)))) := by
          unfold nextSlug
          rw [hInv (slugify (lineAt doc mp.1))]
          by_cases hc0 : baseCount slugify pre (slugify (lineAt doc mp.1)) = 0
          · simp [hc0]
          · have hsucc : baseCount slugify pre (slugify (lineAt doc mp.1)) - 1 + 1
                = baseCount slugify pre (slugify (lineAt doc mp.1)) := by omega
            simp [hc0, hsucc]
        have hhead : specSlugAt slugify (pre ++ lineAt doc mp.1 :: headingTexts doc rest)
              (pre.length + 0)
            = (nextSlug slugify m (slugify (lineAt doc mp.1))).1 := by
          unfold specSlugAt
          rw [Nat.add_zero, hgetD, htake, hnext1]
        have hInv' : ∀ s, slugMapGet (nextSlug slugify m (slugify (lineAt doc mp.1))).2 s =
            if baseCount slugify (pre ++ [lineAt doc mp.1]) s = 0 then none
            else some (baseCount slugify (pre ++ [lineAt doc mp.1]) s - 1) := by
          intro s
          rw [baseCount_append]
          cases hget : slugMapGet m (slugify (lineAt doc mp.1)) with
          | none =>
            have hc0 : baseCount slugify pre (slugify (lineAt doc mp.1)) = 0 := by
              by_contra hne
              rw [hInv (slugify (lineAt doc mp.1)), if_neg hne] at hget
              exact Option.noConfusion hget
            have hsnd : (nextSlug slugify m (slugify (lineAt doc mp.1))).2
                = m ++ [(slugify (lineAt doc mp.1), 0)] := by
              unfold nextSlug
              rw [hget]
            rw [hsnd, slugMapGet_append, hInv s]
            by_cases hbs : slugify (lineAt doc mp.1) = s
            · have hzero : baseCount slugify pre s = 0 := hbs ▸ hc0
              simp [hbs, hzero]
            · simp [hbs]
          | some count =>
            have hcpos : ¬ baseCount slugify pre (slugify (lineAt doc mp.1)) = 0 := by
              intro hc0
              rw [hInv (slugify (lineAt doc mp.1)), if_pos hc0] at hget
              exact Option.noConfusion hget
            have hcount : count = baseCount slugify pre (slugify (lineAt doc mp.1)) - 1 := by
              have h1 := hget.symm.trans (hInv (slugify (lineAt doc mp.1)))
              rw [if_neg hcpos] at h1
              exact Option.some_inj.mp h1
            have hsnd : (nextSlug slugify m (slugify (lineAt doc mp.1))).2
                = slugMapInc m (slugify (lineAt doc mp.1)) := by
              unfold nextSlug
              rw [hget]
            rw [hsnd, slugMapGet_inc, hInv s]
            by_cases hbs : slugify (lineAt doc mp.1) = s
            · have hcs : baseCount slugify pre s
                  = baseCount slugify pre (slugify (lineAt doc mp.1)) := by rw [hbs]
              rw [if_pos hbs, if_pos hbs, hcs, if_neg hcpos, if_neg (by omega)]
              have heq : baseCount slugify pre (slugify (lineAt doc mp.1)) - 1 + 1
                  = baseCount slugify pre (slugify (lineAt doc mp.1)) + 1 - 1 := by omega
              exact congrArg some heq
            · simp [hbs]
        have hstep : buildTocHeadings slugify doc (tok :: rest) m
            = { slug := (nextSlug slugify m (slugify (lineAt doc mp.1))).1
                text := getHeaderText (lineAt doc mp.1)
                level := getHeaderLevel tok.markup
                line := mp.1
                sectionLocation := headerLocationOf doc mp.1
                headerLocation := headerLocationOf doc mp.1
                headerTextLocation := headerTextLocationOf doc mp.1 } ::
                buildTocHeadings slugify doc rest
                  (nextSlug slugify m (slugify (lineAt doc mp.1))).2 := by
          simp [buildTocHeadings, htype, hmap]
        rw [hstep, hht]
        simp only [List.map_cons, List.length_cons, List.range_succ_eq_map, List.map_map]
        congr 1
        · exact hhead.symm
        · rw [ih (nextSlug slugify m (slugify (lineAt doc mp.1))).2
            (pre ++ [lineAt doc mp.1]) hInv']
          apply List.map_congr_left
          intro i _
          have harr : pre.length + (i + 1) = (pre ++ [lineAt doc mp.1]).length + i := by
            simp
            omega
          have hlist : pre ++ lineAt doc mp.1 :: headingTexts doc rest
              = (pre ++ [lineAt doc mp.1]) ++ headingTexts doc rest := by
            simp
          simp only [Function.comp_apply, Nat.succ_eq_add_one, harr, hlist]
    · have hht : headingTexts doc (tok :: rest) = headingTexts doc rest := by
        simp [headingTexts, htype]
      simp only [buildTocHeadings, htype, if_false, hht]
      exact ih m pre hInv

/-- C3 counterexample: with heading lines `# a`, `# a`, `# a-1`, the
duplicated text `# a` triggers disambiguation, yet the produced identifiers
are `-a`, `-a-1`, `-a-1`: not pairwise distinct, because the collision
counter is keyed on the base slug only, so the third heading's own slug
collides with the second heading's disambiguated slug without receiving a
suffix. -/
theorem buildToc_duplicate_slugs :
    (buildToc specSlugify cexDoc cexTokens).map (fun e => e.slug)
        = ["-a", "-a-1", "-a-1"] ∧
      ¬ ((buildToc specSlugify cexDoc cexTokens).map (fun e => e.slug)).Nodup := by
  constructor
  · decide
  · decide

/-- C3 (amended): slug assignment is deterministic and incrementing, but
keyed on base slugs and not globally pairwise distinct: the `i`-th heading
receives its base slug when no earlier heading's line slugifies to the same
base slug, and otherwise the base slug suffixed with `-N`, re-slugified,
where `N` is the number of earlier headings sharing that base slug; a later
heading whose own base slug equals a disambiguated slug still receives it
verbatim (see the counterexample). -/
theorem buildToc_slug_assignment (slugify : String → String) (doc : Document)
    (tokens : List Token) :
    (buildToc slugify doc tokens).map (fun e => e.slug)
      = (List.range (headingTexts doc tokens).length).map
          (specSlugAt slugify (headingTexts doc tokens)) := by
  unfold buildToc
  rw [applySectionLocations_slugs]
  rw [buildTocHeadings_slugs slugify doc tokens [] []
    (by intro s; simp [slugMapGet, baseCount])]
  simp

/-- The lines of the first-pass entries are the heading lines of the
tokens. -/
theorem buildTocHeadings_lines (slugify : String → String) (doc : Document) :
    ∀ (tokens : List Token) (m : List (String × Nat)),
      (buildTocHeadings slugify doc tokens m).map (fun e => e.line)
        = headingLines tokens := by
  intro tokens
  induction tokens with
  | nil => intro m; simp [buildTocHeadings, headingLines]
  | cons tok rest ih =>
    intro m
    by_cases htype : tok.type = "heading_open"
    · cases hmap : tok.map with
      | none => simp [buildTocHeadings, htype, hmap, headingLines, ih]
      | some mp => simp [buildTocHeadings, htype, hmap, headingLines, ih]
    · simp [buildTocHeadings, htype, headingLines, ih]

/-- Every first-pass entry's provisional `sectionLocation` is its
`headerLocation`, which starts at column `0` of its heading line. -/
theorem buildTocHeadings_sectionLocation (slugify : String → String) (doc : Document) :
    ∀ (tokens : List Token) (m : List (String × Nat)),
      ∀ e ∈ buildTocHeadings slugify doc tokens m,
        e.sectionLocation = headerLocationOf doc e.line := by
  intro tokens
  induction tokens with
  | nil => intro m e he; simp [buildTocHeadings] at he
  | cons tok rest ih =>
    intro m e he
    by_cases htype : tok.type = "heading_open"
    · cases hmap : tok.map with
      | none =>
        simp only [buildTocHeadings, htype, if_true, hmap] at he
        exact ih _ e he
      | some mp =>
        simp only [buildTocHeadings, htype, if_true, hmap] at he
        rcases List.mem_cons.mp he with rfl | he'
        · rfl
        · exact ih _ e he'
    · simp only [buildTocHeadings, htype, if_false] at he
      exact ih _ e he

/-- The second pass preserves the entry count. -/
theorem applySectionLocations_length (doc : Document) (toc : List TocEntry) :
    ∀ (i : Nat) (l : List TocEntry),
      (applySectionLocations doc toc i l).length = l.length := by
  intro i l
  induction l generalizing i with
  | nil => rfl
  | cons e rest ih => simp [applySectionLocations, ih]

/-- The second pass maps the entry at offset `j` through
`withSectionLocation` at absolute index `i + j`. -/
theorem applySectionLocations_get (doc : Document) (toc : List TocEntry) :
    ∀ (l : List TocEntry) (i j : Nat) (h : j < (applySectionLocations doc toc i l).length)
      (h' : j < l.length),
      (applySectionLocations doc toc i l).get ⟨j, h⟩
        = withSectionLocation doc toc (i + j) (l.get ⟨j, h'⟩) := by
  intro l
  induction l with
  | nil => intro i j h h'; simp at h'
  | cons e rest ih =>
    intro i j h h'
    cases j with
    | zero => rfl
    | succ k =>
      have hk : k < (applySectionLocations doc toc (i + 1) rest).length := by
        rw [applySectionLocations_length]
        simpa using h'
      have := ih (i + 1) k hk (by simpa using h')
      simp only [applySectionLocations, List.get_cons_succ]
      rw [this]
      congr 1
      omega

/-- The second pass does not touch levels. -/
theorem applySectionLocations_levels (doc : Document) (toc : List TocEntry) :
    ∀ (i : Nat) (l : List TocEntry),
      (applySectionLocations doc toc i l).map (fun e => e.level)
        = l.map (fun e => e.level) := by
  intro i l
  induction l generalizing i with
  | nil => rfl
  | cons e rest ih => simp [applySectionLocations, withSectionLocation, ih]

/-- The second pass does not touch lines. -/
theorem applySectionLocations_lines (doc : Document) (toc : List TocEntry) :
    ∀ (i : Nat) (l : List TocEntry),
      (applySectionLocations doc toc i l).map (fun e => e.line)
        = l.map (fun e => e.line) := by
  intro i l
  induction l generalizing i with
  | nil => rfl
  | cons e rest ih => simp [applySectionLocations, withSectionLocation, ih]

/-- The section-end loop is the first entry of level at most `level`. -/
theorem findSectionEndLine_eq_find? (level : Nat) :
    ∀ l : List TocEntry,
      findSectionEndLine level l
        = (l.find? (fun f => f.level ≤ level)).map (fun f => f.line - 1) := by
  intro l
  induction l with
  | nil => rfl
  | cons e rest ih =>
    by_cases he : e.level ≤ level
    · rw [findSectionEndLine, if_pos he, List.find?_cons_of_pos _ (by simpa using he)]
      rfl
    · rw [findSectionEndLine, if_neg he, List.find?_cons_of_neg _ (by simpa using he), ih]

/-- `find?` on a level bound, projected to lines, only depends on the level
and line projections of the list. -/
theorem find?_level_map_line (L : Nat) :
    ∀ {l1 l2 : List TocEntry},
      l1.map (fun e => e.level) = l2.map (fun e => e.level) →
      l1.map (fun e => e.line) = l2.map (fun e => e.line) →
      (l1.find? (fun f => f.level ≤ L)).map (fun f => f.line)
        = (l2.find? (fun f => f.level ≤ L)).map (fun f => f.line) := by
  intro l1
  induction l1 with
  | nil =>
    intro l2 hlev _
    cases l2 with
    | nil => rfl
    | cons b t2 => simp at hlev
  | cons a t ih =>
    intro l2 hlev hline
    cases l2 with
    | nil => simp at hlev
    | cons b t2 =>
      simp only [List.map_cons, List.cons.injEq] at hlev hline
      by_cases hA : a.level ≤ L
      · rw [List.find?_cons_of_pos _ (by simpa using hA),
          List.find?_cons_of_pos _ (by simp [← hlev.1]; exact hA)]
        simp [hline.1]
      · rw [List.find?_cons_of_neg _ (by simpa using hA),
          List.find?_cons_of_neg _ (by simp only [decide_eq_true_eq, ← hlev.1]; exact hA)]
        exact ih hlev.2 hline.2

/-- C1: each table-of-contents entry's section range starts at column `0` of
its heading line and ends immediately before the line of the first later
entry whose level is at most its own, or at the last line of the document
when no such later entry exists.  The hypothesis states that the heading
tokens appear in strictly increasing line order, as the tokenizer
guarantees. -/
theorem buildToc_section_ranges (slugify : String → String) (doc : Document)
    (tokens : List Token) (hmono : (headingLines tokens).Chain' (· < ·)) :
    ∀ (i : Nat) (h : i < (buildToc slugify doc tokens).length),
      ((buildToc slugify doc tokens).get ⟨i, h⟩).sectionLocation.range.start
          = ⟨((buildToc slugify doc tokens).get ⟨i, h⟩).line, 0⟩ ∧
        (match ((buildToc slugify doc tokens).drop (i + 1)).find?
            (fun f => f.level ≤ ((buildToc slugify doc tokens).get ⟨i, h⟩).level) with
         | some f =>
            ((buildToc slugify doc tokens).get ⟨i, h⟩).sectionLocation.range.endPos.line + 1
              = f.line
         | none =>
            ((buildToc slugify doc tokens).get ⟨i, h⟩).sectionLocation.range.endPos.line
              = doc.lines.length - 1) := by
  intro i h
  have hlen : i < (buildTocHeadings slugify doc tokens []).length := by
    have hl := applySectionLocations_length doc (buildTocHeadings slugify doc tokens []) 0
      (buildTocHeadings slugify doc tokens [])
    simp only [buildToc] at h
    omega
  have hget : (buildToc slugify doc tokens).get ⟨i, h⟩
      = withSectionLocation doc (buildTocHeadings slugify doc tokens []) i
          ((buildTocHeadings slugify doc tokens []).get ⟨i, hlen⟩) := by
    have hg := applySectionLocations_get doc (buildTocHeadings slugify doc tokens [])
      (buildTocHeadings slugify doc tokens []) 0 i (by simpa [buildToc] using h) hlen
    simp only [buildToc]
    simpa using hg
  have hsec := buildTocHeadings_sectionLocation slugify doc tokens []
    ((buildTocHeadings slugify doc tokens []).get ⟨i, hlen⟩) (List.get_mem _ _ _)
  constructor
  · rw [hget]
    simp only [withSectionLocation]
    rw [hsec]
    rfl
  · have hlev : ((buildToc slugify doc tokens).drop (i + 1)).map (fun e => e.level)
        = ((buildTocHeadings slugify doc tokens []).drop (i + 1)).map (fun e => e.level) := by
      rw [List.map_drop, List.map_drop, buildToc, applySectionLocations_levels]
    have hline : ((buildToc slugify doc tokens).drop (i + 1)).map (fun e => e.line)
        = ((buildTocHeadings slugify doc tokens []).drop (i + 1)).map (fun e => e.line) := by
      rw [List.map_drop, List.map_drop, buildToc, applySectionLocations_lines]
    have hfind := find?_level_map_line
      (((buildTocHeadings slugify doc tokens []).get ⟨i, hlen⟩).level) hlev hline
    have hEl : ((buildToc slugify doc tokens).get ⟨i, h⟩).level
        = ((buildTocHeadings slugify doc tokens []).get ⟨i, hlen⟩).level := by
      rw [hget]
      rfl
    have hEnd : ((buildToc slugify doc tokens).get ⟨i, h⟩).sectionLocation.range.endPos.line
        = (findSectionEndLine ((buildTocHeadings slugify doc tokens []).get ⟨i, hlen⟩).level
            ((buildTocHeadings slugify doc tokens []).drop (i + 1))).getD
            (doc.lines.length - 1) := by
      rw [hget]
      rfl
    have hpair : (buildTocHeadings slugify doc tokens []).Pairwise
        (fun a b => a.line < b.line) := by
      have h1 : ((buildTocHeadings slugify doc tokens []).map (fun e => e.line)).Chain'
          (· < ·) := by
        rw [buildTocHeadings_lines]
        exact hmono
      rw [List.chain'_iff_pairwise, List.pairwise_map] at h1
      exact h1
    rw [hEl]
    cases hF : ((buildTocHeadings slugify doc tokens []).drop (i + 1)).find?
        (fun f => f.level ≤ ((buildTocHeadings slugify doc tokens []).get ⟨i, hlen⟩).level)
        with
    | none =>
      have hF' : ((buildToc slugify doc tokens).drop (i + 1)).find?
          (fun f => f.level ≤ ((buildTocHeadings slugify doc tokens []).get ⟨i, hlen⟩).level)
          = none := by
        rw [hF] at hfind
        cases hF2 : ((buildToc slugify doc tokens).drop (i + 1)).find?
            (fun f => f.level ≤
              ((buildTocHeadings slugify doc tokens []).get ⟨i, hlen⟩).level) with
        | none => rfl
        | some f2 =>
          rw [hF2] at hfind
          simp at hfind
      rw [hF']
      rw [hEnd, findSectionEndLine_eq_find?, hF]
      rfl
    | some f =>
      have hmem : f ∈ (buildTocHeadings slugify doc tokens []).drop (i + 1) :=
        List.mem_of_find?_eq_some hF
      obtain ⟨j, hj, hjf⟩ : ∃ j, ∃ hj : j <
          ((buildTocHeadings slugify doc tokens []).drop (i + 1)).length,
          ((buildTocHeadings slugify doc tokens []).drop (i + 1)).get ⟨j, hj⟩ = f := by
        obtain ⟨n, hng⟩ := List.mem_iff_get.mp hmem
        exact ⟨n.1, n.2, hng⟩
      have hjlen : i + 1 + j < (buildTocHeadings slugify doc tokens []).length := by
        have := hj
        simp only [List.length_drop] at this
        omega
      have hjget : (buildTocHeadings slugify doc tokens []).get ⟨i + 1 + j, hjlen⟩ = f := by
        rw [← hjf]
        simp only [List.get_eq_getElem, List.getElem_drop']
      have hlt : ((buildTocHeadings slugify doc tokens []).get ⟨i, hlen⟩).line < f.line := by
        rw [← hjget]
        have := List.pairwise_iff_get.mp hpair ⟨i, hlen⟩ ⟨i + 1 + j, hjlen⟩ (by simp; omega)
        exact this
      have hfpos : 1 ≤ f.line := by omega
      cases hF2 : ((buildToc slugify doc tokens).drop (i + 1)).find?
          (fun f => f.level ≤
            ((buildTocHeadings slugify doc tokens []).get ⟨i, hlen⟩).level) with
      | none =>
        rw [hF, hF2] at hfind
        simp at hfind
      | some f2 =>
        rw [hF, hF2] at hfind
        simp at hfind
        rw [hEnd, findSectionEndLine_eq_find?, hF]
        show f.line - 1 + 1 = f2.line
        omega

/-- Witness for `buildToc_section_ranges` at the concrete document `wDoc`:
the level-1 heading on line 0 closes right before the level-1 heading on
line 2. -/
theorem buildToc_section_ranges_witness :
    (headingLines wTokens).Chain' (· < ·) ∧
      (((buildToc specSlugify wDoc wTokens).get ⟨0, by decide⟩).sectionLocation.range.start
          = ⟨((buildToc specSlugify wDoc wTokens).get ⟨0, by decide⟩).line, 0⟩ ∧
        (match ((buildToc specSlugify wDoc wTokens).drop (0 + 1)).find?
            (fun f => f.level ≤ ((buildToc specSlugify wDoc wTokens).get ⟨0, by decide⟩).level)
            with
         | some f =>
            ((buildToc specSlugify wDoc wTokens).get
              ⟨0, by decide⟩).sectionLocation.range.endPos.line + 1 = f.line
         | none =>
            ((buildToc specSlugify wDoc wTokens).get
              ⟨0, by decide⟩).sectionLocation.range.endPos.line
              = wDoc.lines.length - 1)) :=
  ⟨by rw [show headingLines wTokens = [0, 1, 2] from rfl]
      simp [List.chain'_cons],
    buildToc_section_ranges specSlugify wDoc wTokens
      (by rw [show headingLines wTokens = [0, 1, 2] from rfl]
          simp [List.chain'_cons])
      0 (by decide)⟩

/-- A level-strict symbol dominates all its descendants' levels, which are
themselves level-strict. -/
theorem LevelStrict.desc {a d : DocSym} (h : LevelStrict a) (hd : Desc a d) :
    a.level < d.level ∧ LevelStrict d := by
  induction hd with
  | child hc =>
    rename_i a c
    cases h with
    | node h1 h2 => exact ⟨h1 _ hc, h2 _ hc⟩
  | trans h1 h2 ih1 ih2 =>
    obtain ⟨l1, s1⟩ := ih1 h
    obtain ⟨l2, s2⟩ := ih2 s1
    exact ⟨Nat.lt_trans l1 l2, s2⟩

/-- The `popCarry` walk of `buildTree` preserves the chain invariant: the
carried subtree lands under a frame of strictly smaller level, the roots
stay level-strict, and the walk stops strictly below `lvl`. -/
theorem popCarry_inv (lvl : Nat) :
    ∀ (stack : List SymFrame) (root : List DocSym) (t : DocSym),
      framesOK stack → (∀ r ∈ root, LevelStrict r) → LevelStrict t →
      stackLevelLt stack t.level →
      framesOK (popCarry lvl t stack root).1 ∧
        (∀ r ∈ (popCarry lvl t stack root).2, LevelStrict r) ∧
        stackLevelLt (popCarry lvl t stack root).1 lvl := by
  intro stack
  induction stack with
  | nil =>
    intro root t _ hr ht _
    refine ⟨trivial, ?_, trivial⟩
    intro r hrm
    rcases List.mem_append.mp hrm with h | h
    · exact hr r h
    · rw [List.mem_singleton.mp h]
      exact ht
  | cons g gs ih =>
    intro root t hf hr ht hs
    obtain ⟨hg, hgs, hfs⟩ := hf
    have hg' : ∀ c ∈ g.children ++ [t], g.entry.level < c.level ∧ LevelStrict c := by
      intro c hc
      rcases List.mem_append.mp hc with h | h
      · exact hg c h
      · rw [List.mem_singleton.mp h]
        exact ⟨hs, ht⟩
    unfold popCarry
    by_cases hcond : lvl ≤ g.entry.level
    · rw [if_pos hcond]
      exact ih root (completeFrame ⟨g.entry, g.children ++ [t]⟩) hfs hr
        (LevelStrict.node (fun c hc => (hg' c hc).1) (fun c hc => (hg' c hc).2)) hgs
    · rw [if_neg hcond]
      exact ⟨⟨hg', hgs, hfs⟩, hr, by simpa [stackLevelLt] using Nat.lt_of_not_le hcond⟩

/-- The `while` loop of `buildTree` preserves the chain invariant and stops
strictly below the incoming entry's level. -/
theorem popWhile_inv (lvl : Nat) (stack : List SymFrame) (root : List DocSym)
    (hf : framesOK stack) (hr : ∀ r ∈ root, LevelStrict r) :
    framesOK (popWhile lvl stack root).1 ∧
      (∀ r ∈ (popWhile lvl stack root).2, LevelStrict r) ∧
      stackLevelLt (popWhile lvl stack root).1 lvl := by
  cases stack with
  | nil => exact ⟨trivial, hr, trivial⟩
  | cons f rest =>
    obtain ⟨hfc, hrest, hfr⟩ := hf
    simp only [popWhile]
    by_cases hcond : lvl ≤ f.entry.level
    · rw [if_pos hcond]
      exact popCarry_inv lvl rest root (completeFrame f) hfr hr
        (LevelStrict.node (fun c hc => (hfc c hc).1) (fun c hc => (hfc c hc).2)) hrest
    · rw [if_neg hcond]
      exact ⟨⟨hfc, hrest, hfr⟩, hr, by simpa [stackLevelLt] using Nat.lt_of_not_le hcond⟩

/-- One `buildTree` step preserves the chain invariant. -/
theorem treeStep_inv (acc : List SymFrame × List DocSym) (entry : TocEntry)
    (hf : framesOK acc.1) (hr : ∀ r ∈ acc.2, LevelStrict r) :
    framesOK (treeStep acc entry).1 ∧ ∀ r ∈ (treeStep acc entry).2, LevelStrict r := by
  obtain ⟨h1, h2, h3⟩ := popWhile_inv entry.level acc.1 acc.2 hf hr
  exact ⟨⟨by simp, h3, h1⟩, h2⟩

/-- The fold over all entries preserves the chain invariant. -/
theorem foldl_treeStep_inv (entries : List TocEntry) :
    ∀ acc : List SymFrame × List DocSym,
      framesOK acc.1 → (∀ r ∈ acc.2, LevelStrict r) →
      framesOK (entries.foldl treeStep acc).1 ∧
        ∀ r ∈ (entries.foldl treeStep acc).2, LevelStrict r := by
  induction entries with
  | nil => intro acc hf hr; exact ⟨hf, hr⟩
  | cons e rest ih =>
    intro acc hf hr
    obtain ⟨hf', hr'⟩ := treeStep_inv acc e hf hr
    exact ih (treeStep acc e) hf' hr'

/-- Unwinding the rest of the chain around a carried subtree keeps every
resulting root level-strict. -/
theorem popAllAux_inv :
    ∀ (stack : List SymFrame) (root : List DocSym) (t : DocSym),
      framesOK stack → (∀ r ∈ root, LevelStrict r) → LevelStrict t →
      stackLevelLt stack t.level →
      ∀ r ∈ popAllAux t stack root, LevelStrict r := by
  intro stack
  induction stack with
  | nil =>
    intro root t _ hr ht _ r hrm
    rcases List.mem_append.mp hrm with h | h
    · exact hr r h
    · rw [List.mem_singleton.mp h]
      exact ht
  | cons g gs ih =>
    intro root t hf hr ht hs
    obtain ⟨hg, hgs, hfs⟩ := hf
    have hg' : ∀ c ∈ g.children ++ [t], g.entry.level < c.level ∧ LevelStrict c := by
      intro c hc
      rcases List.mem_append.mp hc with h | h
      · exact hg c h
      · rw [List.mem_singleton.mp h]
        exact ⟨hs, ht⟩
    unfold popAllAux
    exact ih root (completeFrame ⟨g.entry, g.children ++ [t]⟩) hfs hr
      (LevelStrict.node (fun c hc => (hg' c hc).1) (fun c hc => (hg' c hc).2)) hgs

/-- Unwinding the whole chain keeps every resulting root level-strict. -/
theorem popAll_inv (stack : List SymFrame) (root : List DocSym)
    (hf : framesOK stack) (hr : ∀ r ∈ root, LevelStrict r) :
    ∀ r ∈ popAll stack root, LevelStrict r := by
  cases stack with
  | nil => exact hr
  | cons f rest =>
    obtain ⟨hfc, hrest, hfr⟩ := hf
    unfold popAll
    exact popAllAux_inv rest root (completeFrame f) hfr hr
      (LevelStrict.node (fun c hc => (hfc c hc).1) (fun c hc => (hfc c hc).2)) hrest

/-- Every tree `buildTree` returns is level-strict. -/
theorem buildTree_strict (entries : List TocEntry) :
    ∀ t ∈ buildTree entries, LevelStrict t := by
  obtain ⟨hf, hr⟩ := foldl_treeStep_inv entries ([], []) trivial (by simp)
  exact popAll_inv (entries.foldl treeStep ([], [])).1 (entries.foldl treeStep ([], [])).2 hf hr

/-- C2: in the hierarchical symbol tree returned by
`provideDocumentSymbols`, no symbol ever appears as a descendant of a symbol
whose heading level is greater than or equal to its own; in particular two
consecutive headings at equal level are never parent and child. -/
theorem provideDocumentSymbols_no_shallow_descendant (slugify : String → String)
    (doc : Document) (tokens : List Token) :
    ∀ t ∈ provideDocumentSymbols slugify doc tokens,
      ∀ a, (a = t ∨ Desc t a) → ∀ d, Desc a d → ¬ (d.level ≤ a.level) := by
  intro t ht a ha d hd
  have hts : LevelStrict t := buildTree_strict _ t ht
  have has : LevelStrict a := by
    rcases ha with rfl | hda
    · exact hts
    · exact (hts.desc hda).2
  have hlt := (has.desc hd).1
  omega

/-- The symbol forest of `wDoc` computed explicitly: `## s` nests under
`# h`, and `# h2` is a sibling of `# h`. -/
theorem wForest_eq :
    provideDocumentSymbols specSlugify wDoc wTokens
      = [DocSym.node wE1 [DocSym.node wE2 []], DocSym.node wE3 []] := by
  with_unfolding_all rfl

/-- Witness for `provideDocumentSymbols_no_shallow_descendant` at the
concrete document `wDoc`: the `## s` child does not sit at a level at most
its `# h` parent's. -/
theorem provideDocumentSymbols_no_shallow_descendant_witness :
    ¬ ((DocSym.node wE2 []).level ≤ (DocSym.node wE1 [DocSym.node wE2 []]).level) :=
  provideDocumentSymbols_no_shallow_descendant specSlugify wDoc wTokens
    (DocSym.node wE1 [DocSym.node wE2 []]) (by rw [wForest_eq]; exact List.Mem.head _)
    (DocSym.node wE1 [DocSym.node wE2 []]) (Or.inl rfl)
    (DocSym.node wE2 []) (Desc.child (List.Mem.head _))

end Vscode
